import Mathlib

/-!
Shallow embedding of the `transmission` Go package (magnet-link, URN and
numeric-range parsing) together with proofs about the claims of its
specification.

Modelling conventions:
 - Go strings are byte strings; they are modelled as Lean `String`
   (lists of `Char`).  All inputs exercised here are ASCII, where one
   byte is one character, so byte indexing and character indexing agree.
 - `strings.ToLower` is modelled on the ASCII range (the only range the
   parsers compare against: `"urn"`, `"magnet"`, `"btih"`, parameter keys).
 - Go's `int` is 64-bit; `strconv.Atoi` is modelled with the exact
   64-bit bounds, returning `none` on any syntax or range error.
 - Fallible Go functions returning `(T, error)` are modelled as
   `Except GoError T` (a non-nil error means the caller takes the error
   path in every call site of this repository).
 - Go maps (`url.Values`, the `Exps`/`Unknowns` maps) are modelled as
   association lists in first-insertion order.  Go's map iteration order
   is unspecified; every claim proved here is insensitive to the order
   in which distinct keys are processed.
-/

/-- Errors produced by the package and by its collaborators; mirrors the
`errors.New` / `fmt.Errorf` values of the sources.  Wrapped causes are kept
structurally so the error taxonomy (malformed-input versus wrong-type)
remains decidable. -/
inductive GoError where
  /-- a `net/url` parse error (collaborator) -/
  | urlError (msg : String)
  /-- `strconv.Atoi` failure on the given input string -/
  | atoiError (s : String)
  /-- `errors.New "Malformed num range string"` of num_range.go -/
  | malformedNumRange
  /-- `ErrMalformedUrn` (wrong segment count) of urn.go -/
  | malformedUrn
  /-- `ErrMalformedUrn: Invalid scheme` of urn.go -/
  | urnInvalidScheme
  /-- `ErrMalformedMagnetLink: <url error>` (magnet_link.go line 66) -/
  | magnetUriWrap (e : GoError)
  /-- `ErrMalformedMagnetLink: Invalid scheme` -/
  | invalidScheme
  /-- `ErrMalformedMagnetLink: Invalid xt [cause]` -/
  | invalidXt (e : GoError)
  /-- `ErrMalformedMagnetLink: Invalid xl [cause]`; carries the bad value -/
  | invalidXl (s : String)
  /-- `ErrMalformedMagnetLink: Invalid as [cause]`; carries the bad value -/
  | invalidAs (s : String)
  /-- `ErrMalformedMagnetLink: Invalid tr [cause]`; carries the bad value -/
  | invalidTr (s : String)
  /-- `ErrMalformedMagnetLink: Invalid so [cause]` -/
  | invalidSo (e : GoError)
  /-- `ErrMalformedMagnetLink: Invalid experimental parameter` -/
  | invalidExp
  /-- `ErrMalformedMagnetLink: Uknown parameters` (sic, strict mode) -/
  | unknownParameters
  /-- `ErrMalformedMagnetLink: Cannot decode btih [Bad length]` -/
  | badBtihLength
  /-- `ErrMalformedMagnetLink: Cannot decode btih [cause]`; carries the nss -/
  | btihDecode (s : String)
  /-- `ErrWrongMagnetLinkType: No torrent` -/
  | noTorrent
deriving DecidableEq

/-- The wrong-type error family of the spec (`ErrWrongMagnetLinkType`);
every other constructor belongs to the malformed-input family. -/
def GoError.isWrongType : GoError → Bool
  | .noTorrent => true
  | _ => false

instance {ε α : Type} [DecidableEq ε] [DecidableEq α] : DecidableEq (Except ε α) := fun a b =>
  match a, b with
  | .error e1, .error e2 =>
    if h : e1 = e2 then .isTrue (by rw [h]) else .isFalse (by intro hc; cases hc; exact h rfl)
  | .ok x, .ok y =>
    if h : x = y then .isTrue (by rw [h]) else .isFalse (by intro hc; cases hc; exact h rfl)
  | .error _, .ok _ => .isFalse (by intro hc; cases hc)
  | .ok _, .error _ => .isFalse (by intro hc; cases hc)

/-- ASCII lower-casing of one character, the fragment of `unicode.ToLower`
relevant to the comparisons performed by the package. -/
def toLowerChar (c : Char) : Char :=
  if 65 ≤ c.toNat ∧ c.toNat ≤ 90 then Char.ofNat (c.toNat + 32) else c

/-- Model of `strings.ToLower`. -/
def goToLower (s : String) : String := ⟨s.data.map toLowerChar⟩

/-- Model of `strings.Split` with a one-character separator, on character
lists.  The result is always non-empty, like Go's. -/
def splitChar (sep : Char) : List Char → List (List Char)
  | [] => [[]]
  | c :: rest =>
    match splitChar sep rest with
    | [] => [[]]
    | g :: gs => if c = sep then [] :: g :: gs else (c :: g) :: gs

/-- `strings.Split` on `String`. -/
def goSplit (s : String) (sep : Char) : List String :=
  (splitChar sep s.data).map (fun l => ⟨l⟩)

/-- Model of `strings.Cut`: split at the first occurrence of `sep`,
`none` when `sep` does not occur. -/
def cutListAux (sep : Char) : List Char → Option (List Char × List Char)
  | [] => none
  | c :: rest =>
    if c = sep then some ([], rest)
    else (cutListAux sep rest).map (fun p => (c :: p.1, p.2))

/-- ASCII decimal digit test (Go's `'0' <= c && c <= '9'`). -/
def isDigitChar (c : Char) : Bool := 48 ≤ c.toNat ∧ c.toNat ≤ 57

/-- ASCII letter test used by `net/url`'s scheme scanner. -/
def isAlphaChar (c : Char) : Bool :=
  (97 ≤ c.toNat ∧ c.toNat ≤ 122) ∨ (65 ≤ c.toNat ∧ c.toNat ≤ 90)

/-- Decimal value of a digit string, most significant digit first
(the accumulation loop of `strconv.ParseUint`). -/
def digitsVal (l : List Char) : Nat :=
  l.foldl (fun acc c => acc * 10 + (c.toNat - 48)) 0

/-- Model of `strconv.Atoi`: optional sign, one or more decimal digits,
value within the 64-bit `int` range; `none` on syntax or range error. -/
def atoi (s : String) : Option Int :=
  match s.data with
  | [] => none
  | c :: rest =>
    let signAndDigits : Bool × List Char :=
      if c = Char.ofNat 43 then (false, rest)
      else if c = Char.ofNat 45 then (true, rest)
      else (false, c :: rest)
    let neg := signAndDigits.1
    let ds := signAndDigits.2
    if ds = [] then none
    else if ds.all isDigitChar then
      let v := digitsVal ds
      if neg then
        if v ≤ 9223372036854775808 then some (-(v : Int)) else none
      else
        if v ≤ 9223372036854775807 then some ((v : Int)) else none
    else none

/-- `NumRange` of num_range.go. -/
structure NumRange where
  Start : Int
  End : Int
  IncludeStart : Bool
  IncludeEnd : Bool
deriving DecidableEq

/-- `NewSingleNumRange` of num_range.go. -/
def NewSingleNumRange (num : Int) : NumRange := ⟨num, num, true, true⟩

/-- `ParseNumRangeFromString` of num_range.go.  The two-segment branch of
the source parses both bounds and fills the result but does not return;
control falls through to `err = errors.New("Malformed num range string")`,
so the branch always reports that error.  The embedding reproduces this
fall-through faithfully. -/
def ParseNumRangeFromString (s : String) : Except GoError NumRange :=
  match goSplit s (Char.ofNat 45) with
  | [_] =>
    match atoi s with
    | none => .error (.atoiError s)
    | some num => .ok ⟨num, num, true, true⟩
  | [a, b] =>
    match atoi a with
    | none => .error (.atoiError a)
    | some _ =>
      match atoi b with
      | none => .error (.atoiError b)
      | some _ => .error .malformedNumRange
  | _ => .error .malformedNumRange

/-- `Urn` of urn.go. -/
structure Urn where
  Nid : String
  Nss : String
deriving DecidableEq

/-- The `String` method of `Urn`: `fmt.Sprintf("urn:%v:%v", u.Nid, u.Nss)`. -/
def Urn.goString (u : Urn) : String :=
  ⟨[Char.ofNat 117, Char.ofNat 114, Char.ofNat 110, Char.ofNat 58] ++
    u.Nid.data ++ [Char.ofNat 58] ++ u.Nss.data⟩

/-- `ParseUrn` of urn.go: split on a colon into exactly three parts
(the three-element pattern is Go's `len(strs) != 3` check), require the
first part to be `"urn"` case-insensitively, keep the other two parts
verbatim. -/
def ParseUrn (urn : String) : Except GoError Urn :=
  match goSplit urn (Char.ofNat 58) with
  | [scheme, nid, nss] =>
    if goToLower scheme ≠ "urn" then .error .urnInvalidScheme
    else .ok ⟨nid, nss⟩
  | _ => .error .malformedUrn

/-- Decimal digit character (`'0' + d`). -/
def digitChar (d : Nat) : Char := Char.ofNat (48 + d)

/-- Fuel-driven most-significant-first decimal rendering of a natural
number; `natDecimalAux n n` renders any positive `n` (the number of
decimal digits of `n` never exceeds `n`). -/
def natDecimalAux : Nat → Nat → List Char
  | 0, _ => []
  | _ + 1, 0 => []
  | fuel + 1, n + 1 =>
    natDecimalAux fuel ((n + 1) / 10) ++ [digitChar ((n + 1) % 10)]

/-- Decimal string rendering of a natural number (what `strconv.Itoa`
produces for a non-negative `int`). -/
def natDecimal (n : Nat) : String :=
  if n = 0 then ⟨[digitChar 0]⟩ else ⟨natDecimalAux n n⟩

/-- Hexadecimal digit test of `net/url` (`ishex`) and `encoding/hex`. -/
def ishex (c : Char) : Bool :=
  (48 ≤ c.toNat ∧ c.toNat ≤ 57) ∨ (97 ≤ c.toNat ∧ c.toNat ≤ 102) ∨
    (65 ≤ c.toNat ∧ c.toNat ≤ 70)

/-- Hexadecimal digit value (`unhex` of `net/url`, `fromHexChar` of
`encoding/hex`); meaningful only on characters satisfying `ishex`. -/
def unhex (c : Char) : Nat :=
  if 48 ≤ c.toNat ∧ c.toNat ≤ 57 then c.toNat - 48
  else if 97 ≤ c.toNat then c.toNat - 87
  else c.toNat - 55

/-- The escaping modes of `net/url.unescape` that this repository can
reach: path, host, query component, fragment, user/password. -/
inductive EncMode where
  | path
  | host
  | query
  | fragment
  | userPassword
deriving DecidableEq

/-- Characters that `net/url.shouldEscape` keeps escaped inside a host:
everything except letters, digits, `-_.~`, the sub-delimiters and
`:[]<>"`.  `unescape` rejects a host containing such a character. -/
def hostRejectsChar (c : Char) : Bool :=
  ¬(isAlphaChar c ∨ isDigitChar c ∨
    c ∈ [Char.ofNat 45, Char.ofNat 95, Char.ofNat 46, Char.ofNat 126] ∨
    c ∈ [Char.ofNat 33, Char.ofNat 36, Char.ofNat 38, Char.ofNat 39,
         Char.ofNat 40, Char.ofNat 41, Char.ofNat 42, Char.ofNat 43,
         Char.ofNat 44, Char.ofNat 59, Char.ofNat 61, Char.ofNat 58,
         Char.ofNat 91, Char.ofNat 93, Char.ofNat 60, Char.ofNat 62,
         Char.ofNat 34])

/-- Model of `net/url.unescape`: `%` must head a valid two-digit escape
(in host mode only `%25` and escapes of bytes `0x80` and above are
legal), `+` becomes a space in query mode, and host mode rejects
characters that must stay escaped.  `none` is Go's non-nil error. -/
def unescapeAux (mode : EncMode) : List Char → Option (List Char)
  | [] => some []
  | c :: rest =>
    if c = Char.ofNat 37 then
      match rest with
      | a :: b :: rest2 =>
        if ishex a ∧ ishex b then
          if mode = .host ∧ unhex a < 8 ∧ ¬(a = Char.ofNat 50 ∧ b = Char.ofNat 53) then none
          else (unescapeAux mode rest2).map (fun l => Char.ofNat ((unhex a) * 16 + unhex b) :: l)
        else none
      | _ => none
    else if c = Char.ofNat 43 then
      (unescapeAux mode rest).map (fun l => (if mode = .query then Char.ofNat 32 else c) :: l)
    else
      if mode = .host ∧ c.toNat < 128 ∧ hostRejectsChar c then none
      else (unescapeAux mode rest).map (fun l => c :: l)

/-- `url.QueryUnescape`. -/
def queryUnescape (s : String) : Option String :=
  (unescapeAux .query s.data).map (fun l => ⟨l⟩)

/-- `validOptionalPort` of `net/url`: empty, or a colon followed by
decimal digits. -/
def validOptionalPort (p : List Char) : Bool :=
  match p with
  | [] => true
  | c :: rest => c = Char.ofNat 58 ∧ rest.all isDigitChar

/-- The character set `validUserinfo` of `net/url` accepts. -/
def validUserinfoChar (c : Char) : Bool :=
  isAlphaChar c ∨ isDigitChar c ∨
    c ∈ [Char.ofNat 45, Char.ofNat 46, Char.ofNat 95, Char.ofNat 58,
         Char.ofNat 126, Char.ofNat 33, Char.ofNat 36, Char.ofNat 38,
         Char.ofNat 39, Char.ofNat 40, Char.ofNat 41, Char.ofNat 42,
         Char.ofNat 43, Char.ofNat 44, Char.ofNat 59, Char.ofNat 61,
         Char.ofNat 37, Char.ofNat 64]

/-- Index (from the start) of the last occurrence of `c`, if any. -/
def lastIdxOf (c : Char) : List Char → Option Nat
  | [] => none
  | x :: rest =>
    match lastIdxOf c rest with
    | some i => some (i + 1)
    | none => if x = c then some 0 else none

/-- Model of `net/url.parseHost` (bracketed-host zone identifiers are
outside the inputs this repository handles and are treated as plain host
characters): port validation after the last colon, then `unescape` in
host mode. -/
def parseHost (host : List Char) : Except GoError (List Char) :=
  let portCheck : Except GoError Unit :=
    if host.head? = some (Char.ofNat 91) then
      match lastIdxOf (Char.ofNat 93) host with
      | none => .error (.urlError "missing close bracket in host")
      | some i =>
        if validOptionalPort (host.drop (i + 1)) then .ok ()
        else .error (.urlError "invalid port after host")
    else
      match lastIdxOf (Char.ofNat 58) host with
      | none => .ok ()
      | some i =>
        if validOptionalPort (host.drop i) then .ok ()
        else .error (.urlError "invalid port after host")
  match portCheck with
  | .error e => .error e
  | .ok _ =>
    match unescapeAux .host host with
    | some h => .ok h
    | none => .error (.urlError "invalid host")

/-- Model of `net/url.parseAuthority`: host after the last `@`, then
userinfo character-set and escape validation.  Only the host is kept
(the repository never reads the user field). -/
def parseAuthority (a : List Char) : Except GoError (List Char) :=
  match lastIdxOf (Char.ofNat 64) a with
  | none => parseHost a
  | some i =>
    match parseHost (a.drop (i + 1)) with
    | .error e => .error e
    | .ok host =>
      let userinfo := a.take i
      if ¬userinfo.all validUserinfoChar then .error (.urlError "invalid userinfo")
      else
        match cutListAux (Char.ofNat 58) userinfo with
        | none =>
          match unescapeAux .userPassword userinfo with
          | some _ => .ok host
          | none => .error (.urlError "invalid escape in userinfo")
        | some (user, pass) =>
          match unescapeAux .userPassword user, unescapeAux .userPassword pass with
          | some _, some _ => .ok host
          | _, _ => .error (.urlError "invalid escape in userinfo")

/-- The fields of `net/url.URL` that this repository reads, plus the
fields needed to state faithfulness of the parse. -/
structure GoURL where
  scheme : String := ""
  opq : String := ""
  host : String := ""
  path : String := ""
  rawQuery : String := ""
  fragment : String := ""
deriving DecidableEq

/-- `getScheme` of `net/url`, as a scan over the remaining characters;
the first component of a success is the scheme (empty when the URL has
none), the second the rest of the input. -/
def getSchemeAux (orig : String) : List Char → List Char → Except GoError (String × String)
  | _, [] => .ok ("", orig)
  | acc, c :: rest =>
    if isAlphaChar c then getSchemeAux orig (acc ++ [c]) rest
    else if isDigitChar c ∨ c = Char.ofNat 43 ∨ c = Char.ofNat 45 ∨ c = Char.ofNat 46 then
      if acc = [] then .ok ("", orig) else getSchemeAux orig (acc ++ [c]) rest
    else if c = Char.ofNat 58 then
      if acc = [] then .error (.urlError "missing protocol scheme")
      else .ok (⟨acc⟩, ⟨rest⟩)
    else .ok ("", orig)

/-- `getScheme` of `net/url`. -/
def getScheme (s : String) : Except GoError (String × String) :=
  getSchemeAux s [] s.data

/-- `unescape` in path mode wrapped as `setPath` (only escape validity
matters in path mode). -/
def setPathM (p : List Char) : Except GoError String :=
  match unescapeAux .path p with
  | some l => .ok ⟨l⟩
  | none => .error (.urlError "invalid URL escape in path")

/-- The authority-and-path tail of `net/url.parse` (`viaRequest` is
false throughout this repository). -/
def urlAuthorityAndPath (scheme : String) (rest : List Char) (rawQuery : String) :
    Except GoError GoURL :=
  if (scheme ≠ "" ∨ ¬([Char.ofNat 47, Char.ofNat 47, Char.ofNat 47].isPrefixOf rest)) ∧
      ([Char.ofNat 47, Char.ofNat 47].isPrefixOf rest) then
    let after := rest.drop 2
    let authorityRest : List Char × List Char :=
      match cutListAux (Char.ofNat 47) after with
      | none => (after, [])
      | some (a, b) => (a, Char.ofNat 47 :: b)
    match parseAuthority authorityRest.1 with
    | .error e => .error e
    | .ok host =>
      match setPathM authorityRest.2 with
      | .error e => .error e
      | .ok path => .ok { scheme := scheme, host := ⟨host⟩, path := path, rawQuery := rawQuery }
  else
    match setPathM rest with
    | .error e => .error e
    | .ok path => .ok { scheme := scheme, path := path, rawQuery := rawQuery }

/-- The body of `net/url.parse` (fragment already removed,
`viaRequest = false`): control-byte check, `"*"` special case, scheme
extraction and lower-casing, force-query handling, query split, opaque
early return for rootless paths under a scheme, relative-path colon
check, authority and path. -/
def urlParseMain (raw : List Char) : Except GoError GoURL :=
  if raw.any (fun c => c.toNat < 32 ∨ c.toNat = 127) then
    .error (.urlError "invalid control character in URL")
  else if raw = [Char.ofNat 42] then .ok { path := "*" }
  else
    match getScheme ⟨raw⟩ with
    | .error e => .error e
    | .ok (scheme0, rest0) =>
      let scheme := goToLower scheme0
      let rd := rest0.data
      let restAndQuery : List Char × List Char :=
        if rd.getLast? = some (Char.ofNat 63) ∧
            ¬(rd.dropLast.any (fun c => c = Char.ofNat 63)) then
          (rd.dropLast, [])
        else
          match cutListAux (Char.ofNat 63) rd with
          | none => (rd, [])
          | some p => p
      let rest := restAndQuery.1
      let rawQuery : String := ⟨restAndQuery.2⟩
      if ¬([Char.ofNat 47].isPrefixOf rest) then
        if scheme ≠ "" then .ok { scheme := scheme, opq := ⟨rest⟩, rawQuery := rawQuery }
        else
          let seg := match cutListAux (Char.ofNat 47) rest with
            | none => rest
            | some p => p.1
          if seg.any (fun c => c = Char.ofNat 58) then
            .error (.urlError "first path segment in URL cannot contain colon")
          else urlAuthorityAndPath scheme rest rawQuery
      else urlAuthorityAndPath scheme rest rawQuery

/-- Model of `net/url.Parse`: cut the fragment at the first `#`, parse
the remainder, then validate the fragment's escapes. -/
def urlParse (rawURL : String) : Except GoError GoURL :=
  let cut : List Char × List Char :=
    match cutListAux (Char.ofNat 35) rawURL.data with
    | none => (rawURL.data, [])
    | some p => p
  match urlParseMain cut.1 with
  | .error e => .error e
  | .ok url =>
    match cut.2 with
    | [] => .ok url
    | frag =>
      match unescapeAux .fragment frag with
      | some fr => .ok { url with fragment := ⟨fr⟩ }
      | none => .error (.urlError "invalid URL escape in fragment")

/-- Append values under a key of an association-list map, preserving
first-insertion key order (`m[key] = append(m[key], values...)`). -/
def mapAppend (m : List (String × List String)) (k : String) (vs : List String) :
    List (String × List String) :=
  match m with
  | [] => [(k, vs)]
  | (k2, vs2) :: rest =>
    if k2 = k then (k2, vs2 ++ vs) :: rest else (k2, vs2) :: mapAppend rest k vs

/-- The pair loop of `net/url.parseQuery` over the `&`-separated pieces:
empty pieces and pieces containing `;` are skipped, the key is cut at
the first `=`, both sides are query-unescaped, and entries whose
unescaping fails are skipped (the `u.Query()` call site of
magnet_link.go discards `ParseQuery`'s error, so failed entries are
silently dropped). -/
def parseQueryPairs : List (List Char) → List (String × List String) → List (String × List String)
  | [], m => m
  | p :: ps, m =>
    if p = [] then parseQueryPairs ps m
    else if p.any (fun c => c = Char.ofNat 59) then parseQueryPairs ps m
    else
      let kv : List Char × List Char :=
        match cutListAux (Char.ofNat 61) p with
        | none => (p, [])
        | some x => x
      match unescapeAux .query kv.1, unescapeAux .query kv.2 with
      | some k, some v => parseQueryPairs ps (mapAppend m ⟨k⟩ [⟨v⟩])
      | _, _ => parseQueryPairs ps m

/-- `u.Query()` of magnet_link.go: `ParseQuery` on the raw query with the
error discarded. -/
def goParseQuery (query : String) : List (String × List String) :=
  parseQueryPairs (splitChar (Char.ofNat 38) query.data) []

/-- `MagnetLink` of magnet_link.go.  The Go maps are association lists
in first-insertion order; nil and empty maps are both `[]`. -/
structure MagnetLink where
  Dn : List String := []
  Xt : List Urn := []
  Xl : List Int := []
  As : List String := []
  Xs : List String := []
  Kt : List String := []
  Mt : List String := []
  Tr : List String := []
  So : List NumRange := []
  Exps : List (String × List String) := []
  Unknowns : List (String × List String) := []
deriving DecidableEq

/-- `strings.HasPrefix` on a character-list needle. -/
def startsWithChars (s : String) (pre : List Char) : Bool :=
  pre.isPrefixOf s.data

/-- `checkIsMagnetLinkXTParameter` of magnet_link.go: `"xt"` itself, or
`"xt."` followed by a string `strconv.Atoi` accepts. -/
def checkIsMagnetLinkXTParameter (key : String) : Bool :=
  if ¬(startsWithChars key [Char.ofNat 120, Char.ofNat 116]) then false
  else if key = "xt" then true
  else
    match key.data with
    | _ :: _ :: c :: rest =>
      if rest = [] then false
      else if c ≠ Char.ofNat 46 then false
      else (atoi ⟨rest⟩).isSome
    | _ => false

/-- The `xt` value loop of `ParseMagnetLink`: parse every value as a URN,
abort on the first failure. -/
def collectXt (ml : MagnetLink) : List String → Except GoError MagnetLink
  | [] => .ok ml
  | v :: vs =>
    match ParseUrn v with
    | .error e => .error (.invalidXt e)
    | .ok u => collectXt { ml with Xt := ml.Xt ++ [u] } vs

/-- The `xl` value loop: parse every value with `strconv.Atoi`. -/
def collectXl (ml : MagnetLink) : List String → Except GoError MagnetLink
  | [] => .ok ml
  | v :: vs =>
    match atoi v with
    | none => .error (.invalidXl v)
    | some num => collectXl { ml with Xl := ml.Xl ++ [num] } vs

/-- The `as` value loop: one extra `url.QueryUnescape` pass per value. -/
def collectAs (ml : MagnetLink) : List String → Except GoError MagnetLink
  | [] => .ok ml
  | v :: vs =>
    match queryUnescape v with
    | none => .error (.invalidAs v)
    | some v2 => collectAs { ml with As := ml.As ++ [v2] } vs

/-- The `tr` value loop: one extra `url.QueryUnescape` pass per value. -/
def collectTr (ml : MagnetLink) : List String → Except GoError MagnetLink
  | [] => .ok ml
  | v :: vs =>
    match queryUnescape v with
    | none => .error (.invalidTr v)
    | some v2 => collectTr { ml with Tr := ml.Tr ++ [v2] } vs

/-- The inner `so` loop: each comma-separated segment of one value is
parsed as a numeric range. -/
def collectSoSegs (ml : MagnetLink) : List (List Char) → Except GoError MagnetLink
  | [] => .ok ml
  | seg :: segs =>
    match ParseNumRangeFromString ⟨seg⟩ with
    | .error e => .error (.invalidSo e)
    | .ok r => collectSoSegs { ml with So := ml.So ++ [r] } segs

/-- The `so` value loop. -/
def collectSo (ml : MagnetLink) : List String → Except GoError MagnetLink
  | [] => .ok ml
  | v :: vs =>
    match collectSoSegs ml (splitChar (Char.ofNat 44) v.data) with
    | .error e => .error e
    | .ok ml2 => collectSo ml2 vs

/-- One iteration of the parameter loop of `ParseMagnetLink`: lower-case
the key and dispatch on the recognized grammar; unknown keys abort in
strict mode and are otherwise collected (under the lower-cased key). -/
def processEntry (strict : Bool) (ml : MagnetLink) (entry : String × List String) :
    Except GoError MagnetLink :=
  let key := goToLower entry.1
  let values := entry.2
  if key = "dn" then .ok { ml with Dn := ml.Dn ++ values }
  else if checkIsMagnetLinkXTParameter key then collectXt ml values
  else if key = "xl" then collectXl ml values
  else if key = "as" then collectAs ml values
  else if key = "xs" then .ok { ml with Xs := ml.Xs ++ values }
  else if key = "kt" then .ok { ml with Kt := ml.Kt ++ values }
  else if key = "mt" then .ok { ml with Mt := ml.Mt ++ values }
  else if key = "tr" then collectTr ml values
  else if key = "so" then collectSo ml values
  else if startsWithChars key [Char.ofNat 120, Char.ofNat 46] then
    if key.data.length ≤ 2 then .error .invalidExp
    else .ok { ml with Exps := mapAppend ml.Exps ⟨key.data.drop 2⟩ values }
  else if strict then .error .unknownParameters
  else .ok { ml with Unknowns := mapAppend ml.Unknowns key values }

/-- The parameter loop of `ParseMagnetLink` over all query entries. -/
def processAll (strict : Bool) (ml : MagnetLink) :
    List (String × List String) → Except GoError MagnetLink
  | [] => .ok ml
  | e :: es =>
    match processEntry strict ml e with
    | .error err => .error err
    | .ok ml2 => processAll strict ml2 es

/-- `ParseMagnetLink` of magnet_link.go.  The variadic option list only
ever sets the `Strict` flag (`WithMagnetLinkParseStrictOption`), so the
options are modelled as that one boolean, default `false`. -/
def ParseMagnetLink (uri : String) (strict : Bool) : Except GoError MagnetLink :=
  match urlParse uri with
  | .error e => .error (.magnetUriWrap e)
  | .ok u =>
    if goToLower u.scheme ≠ "magnet" then .error .invalidScheme
    else processAll strict {} (goParseQuery u.rawQuery)

/-- Hash type constant `HashSHA1` of hash.go. -/
def HashSHA1 : String := "sha1"

/-- Hash type constant `HashSHA256` of hash.go. -/
def HashSHA256 : String := "sha256"

/-- `HashValue` of hash.go; the byte slice is a list of byte values.
The Go field `Type` is a Lean keyword and is rendered `type`. -/
structure HashValue where
  type : String
  Value : List Nat
deriving DecidableEq

/-- `encoding/hex.DecodeString`: pairs of hexadecimal digits; odd length
or a non-hexadecimal character is an error. -/
def hexDecode : List Char → Option (List Nat)
  | [] => some []
  | a :: b :: rest =>
    if ishex a ∧ ishex b then
      (hexDecode rest).map (fun bs => ((unhex a) * 16 + unhex b) :: bs)
    else none
  | _ => none

/-- Value of a standard base32 alphabet character (`A`-`Z`, `2`-`7`). -/
def b32Val (c : Char) : Option Nat :=
  if 65 ≤ c.toNat ∧ c.toNat ≤ 90 then some (c.toNat - 65)
  else if 50 ≤ c.toNat ∧ c.toNat ≤ 55 then some (c.toNat - 50 + 26)
  else none

/-- Number of bytes produced from a base32 block with `dlen` data
characters; `none` for the lengths `encoding/base32` rejects. -/
def b32DlenCount (dlen : Nat) : Option Nat :=
  if dlen = 8 then some 5
  else if dlen = 7 then some 4
  else if dlen = 5 then some 3
  else if dlen = 4 then some 2
  else if dlen = 2 then some 1
  else none

/-- Pack up to eight 5-bit values into bytes, as the `switch dlen` of
`encoding/base32.decode` does (with byte truncation). -/
def b32Pack (vs : List Nat) (count : Nat) : List Nat :=
  let v := fun i => vs.getD i 0
  List.take count
    [((v 0) * 8 + (v 1) / 4) % 256,
     ((v 1) * 64 + (v 2) * 2 + (v 3) / 16) % 256,
     ((v 3) * 16 + (v 4) / 2) % 256,
     ((v 4) * 128 + (v 5) * 4 + (v 6) / 8) % 256,
     ((v 6) * 32 + (v 7)) % 256]

/-- Decode one 8-character base32 block, allowing trailing `=` padding
(legal only with 2, 4, 5, 7 or 8 data characters). -/
def b32DecodeBlock (block : List Char) : Option (List Nat) :=
  let dataChars := block.takeWhile (fun c => c ≠ Char.ofNat 61)
  if ¬((block.drop dataChars.length).all (fun c => c = Char.ofNat 61)) then none
  else
    match dataChars.mapM b32Val, b32DlenCount dataChars.length with
    | some vs, some count => some (b32Pack vs count)
    | _, _ => none

/-- Block loop of `encoding/base32.decode` with standard padding: the
input is consumed in blocks of eight characters, `=` may appear only in
the final block, and a trailing partial block is a missing-padding
error. -/
def b32DecodeAux : List Char → Option (List Nat)
  | [] => some []
  | c1 :: c2 :: c3 :: c4 :: c5 :: c6 :: c7 :: c8 :: rest =>
    let block := [c1, c2, c3, c4, c5, c6, c7, c8]
    if rest = [] then b32DecodeBlock block
    else if block.any (fun c => c = Char.ofNat 61) then none
    else
      match b32DecodeBlock block, b32DecodeAux rest with
      | some bs, some bs2 => some (bs ++ bs2)
      | _, _ => none
  | _ => none

/-- `encoding/base32.StdEncoding.DecodeString` (newlines are stripped
before decoding, as `Decode` does). -/
def base32Decode (s : List Char) : Option (List Nat) :=
  b32DecodeAux (s.filter (fun c => c ≠ Char.ofNat 13 ∧ c ≠ Char.ofNat 10))

/-- The `switch len(xt.Nss)` of `AsTorrent`: length-driven dispatch of
the btih namespace-specific string to a hash algorithm and an encoding;
a decoding failure is wrapped, any other length is a bad-length error. -/
def decodeBtih (nss : String) : Except GoError HashValue :=
  if nss.length = 32 then
    match base32Decode nss.data with
    | some bs => .ok ⟨HashSHA1, bs⟩
    | none => .error (.btihDecode nss)
  else if nss.length = 40 then
    match hexDecode nss.data with
    | some bs => .ok ⟨HashSHA1, bs⟩
    | none => .error (.btihDecode nss)
  else if nss.length = 56 then
    match base32Decode nss.data with
    | some bs => .ok ⟨HashSHA256, bs⟩
    | none => .error (.btihDecode nss)
  else if nss.length = 64 then
    match hexDecode nss.data with
    | some bs => .ok ⟨HashSHA256, bs⟩
    | none => .error (.btihDecode nss)
  else .error .badBtihLength

/-- The exact-topic loop of `AsTorrent`: decode every `btih` entry (the
namespace id compared case-insensitively), keep input order, abort on
the first failure. -/
def collectInfoHashes : List Urn → Except GoError (List HashValue)
  | [] => .ok []
  | u :: rest =>
    if goToLower u.Nid = "btih" then
      match decodeBtih u.Nss with
      | .error e => .error e
      | .ok h =>
        match collectInfoHashes rest with
        | .error e => .error e
        | .ok hs => .ok (h :: hs)
    else collectInfoHashes rest

/-- `TorrentMagnetLink` of magnet_link.go: the underlying `MagnetLink`
(a reference in Go, a value here) plus the decoded info hashes. -/
structure TorrentMagnetLink where
  magnetLink : MagnetLink
  InfoHashs : List HashValue
deriving DecidableEq

/-- `AsTorrent` of magnet_link.go. -/
def AsTorrent (l : MagnetLink) : Except GoError TorrentMagnetLink :=
  match collectInfoHashes l.Xt with
  | .error e => .error e
  | .ok hs => if hs = [] then .error .noTorrent else .ok ⟨l, hs⟩

/-- `ParseTorrentMagnetLink` of magnet_link.go: parse, propagate a parse
error unchanged, otherwise specialize. -/
def ParseTorrentMagnetLink (uri : String) (strict : Bool) :
    Except GoError TorrentMagnetLink :=
  match ParseMagnetLink uri strict with
  | .error e => .error e
  | .ok ml => AsTorrent ml

/-- The composition the spec describes for `ParseTorrentMagnetLink`:
parse-then-specialize, both failures propagating unchanged.  This
definition follows the spec's words, for comparison with the
source-derived `ParseTorrentMagnetLink`. -/
def parseThenSpecialize (uri : String) (strict : Bool) :
    Except GoError TorrentMagnetLink :=
  (ParseMagnetLink uri strict).bind AsTorrent

/-- The fall-through condition of the parameter dispatch: the
(lower-cased) key matches none of the recognized grammars. -/
def unrecognizedMagnetKey (key : String) : Prop :=
  key ≠ "dn" ∧ checkIsMagnetLinkXTParameter key = false ∧ key ≠ "xl" ∧
    key ≠ "as" ∧ key ≠ "xs" ∧ key ≠ "kt" ∧ key ≠ "mt" ∧ key ≠ "tr" ∧
    key ≠ "so" ∧ startsWithChars key [Char.ofNat 120, Char.ofNat 46] = false

instance (key : String) : Decidable (unrecognizedMagnetKey key) := by
  unfold unrecognizedMagnetKey; infer_instance

theorem splitChar_ne_nil (sep : Char) (l : List Char) : splitChar sep l ≠ [] := by
  induction l with
  | nil => simp [splitChar]
  | cons c rest ih =>
    simp only [splitChar]
    cases hr : splitChar sep rest with
    | nil => simp
    | cons g gs => dsimp only; split <;> simp

theorem splitChar_of_not_mem (sep : Char) (l : List Char) (h : sep ∉ l) :
    splitChar sep l = [l] := by
  induction l with
  | nil => rfl
  | cons c rest ih =>
    have hc : c ≠ sep := fun he => h (he ▸ List.mem_cons_self c rest)
    have hrest : sep ∉ rest := fun hm => h (List.mem_cons_of_mem _ hm)
    simp only [splitChar, ih hrest, if_neg hc]

theorem splitChar_append (sep : Char) (l₁ l₂ : List Char) (h : sep ∉ l₁) :
    splitChar sep (l₁ ++ sep :: l₂) = l₁ :: splitChar sep l₂ := by
  induction l₁ with
  | nil =>
    simp only [List.nil_append, splitChar]
    cases hr : splitChar sep l₂ with
    | nil => exact absurd hr (splitChar_ne_nil sep l₂)
    | cons g gs => simp
  | cons c rest ih =>
    have hc : c ≠ sep := fun he => h (he ▸ List.mem_cons_self c rest)
    have hrest : sep ∉ rest := fun hm => h (List.mem_cons_of_mem _ hm)
    show splitChar sep (c :: (rest ++ sep :: l₂)) = (c :: rest) :: splitChar sep l₂
    simp only [splitChar, ih hrest, if_neg hc]

theorem goSplit_of_not_mem (s : String) (sep : Char) (h : sep ∉ s.data) :
    goSplit s sep = [s] := by
  obtain ⟨l⟩ := s
  simp only [goSplit, splitChar_of_not_mem sep l h, List.map_cons, List.map_nil]

theorem digitsVal_append (l : List Char) (c : Char) :
    digitsVal (l ++ [c]) = digitsVal l * 10 + (c.toNat - 48) := by
  simp [digitsVal, List.foldl_append]

theorem digitChar_isDigit {d : Nat} (h : d < 10) : isDigitChar (digitChar d) = true := by
  interval_cases d <;> decide

theorem digitChar_toNat {d : Nat} (h : d < 10) : (digitChar d).toNat = 48 + d := by
  interval_cases d <;> decide

theorem natDecimalAux_spec :
    ∀ fuel n : Nat, 0 < n → n ≤ fuel →
      natDecimalAux fuel n ≠ [] ∧
      (∀ c ∈ natDecimalAux fuel n, isDigitChar c = true) ∧
      digitsVal (natDecimalAux fuel n) = n := by
  intro fuel
  induction fuel with
  | zero => intro n h1 h2; omega
  | succ fuel ih =>
    intro n h1 h2
    obtain ⟨m, rfl⟩ : ∃ m, n = m + 1 := ⟨n - 1, by omega⟩
    have hstep : natDecimalAux (fuel + 1) (m + 1) =
        natDecimalAux fuel ((m + 1) / 10) ++ [digitChar ((m + 1) % 10)] := rfl
    have hmod : (m + 1) % 10 < 10 := Nat.mod_lt _ (by omega)
    rcases Nat.eq_zero_or_pos ((m + 1) / 10) with hq | hq
    · have haux : natDecimalAux fuel ((m + 1) / 10) = [] := by
        rw [hq]; cases fuel <;> rfl
      have hlt : m + 1 < 10 := by
        rcases Nat.lt_or_ge (m + 1) 10 with h | h
        · exact h
        · exact absurd hq (by have := Nat.div_le_div_right (c := 10) h; omega)
      rw [hstep, haux, List.nil_append]
      refine ⟨by simp, ?_, ?_⟩
      · intro c hm
        rw [List.mem_singleton] at hm
        rw [hm]; exact digitChar_isDigit hmod
      · show digitsVal [digitChar ((m + 1) % 10)] = m + 1
        have hmeq : ((m + 1) % 10) = m + 1 := Nat.mod_eq_of_lt hlt
        have hd := digitChar_toNat hlt
        rw [hmeq]
        simp only [digitsVal, List.foldl_cons, List.foldl_nil, hd]
        omega
    · have hlt : (m + 1) / 10 < m + 1 := Nat.div_lt_self (by omega) (by omega)
      have hle : (m + 1) / 10 ≤ fuel := by omega
      obtain ⟨hne, hdig, hval⟩ := ih ((m + 1) / 10) hq hle
      rw [hstep]
      refine ⟨by simp, ?_, ?_⟩
      · intro c hm
        rcases List.mem_append.mp hm with h | h
        · exact hdig c h
        · rw [List.mem_singleton] at h; rw [h]; exact digitChar_isDigit hmod
      · rw [digitsVal_append, hval, digitChar_toNat hmod]
        omega

theorem natDecimal_data_of_pos {n : Nat} (h : 0 < n) :
    (natDecimal n).data = natDecimalAux n n := by
  simp [natDecimal, Nat.pos_iff_ne_zero.mp h]

theorem natDecimal_all_digits (n : Nat) :
    ∀ c ∈ (natDecimal n).data, isDigitChar c = true := by
  rcases Nat.eq_zero_or_pos n with h0 | h0
  · subst h0; decide
  · rw [natDecimal_data_of_pos h0]
    exact (natDecimalAux_spec n n h0 le_rfl).2.1

theorem natDecimal_no_hyphen (n : Nat) : Char.ofNat 45 ∉ (natDecimal n).data := by
  intro hm
  have := natDecimal_all_digits n _ hm
  exact absurd this (by decide)

theorem atoi_natDecimal (n : Nat) (h : n ≤ 9223372036854775807) :
    atoi (natDecimal n) = some ((n : Int)) := by
  rcases Nat.eq_zero_or_pos n with h0 | h0
  · subst h0; decide
  · obtain ⟨hne, hdig, hval⟩ := natDecimalAux_spec n n h0 le_rfl
    have hd := natDecimal_data_of_pos h0
    obtain ⟨c, rest, hcr⟩ := List.exists_cons_of_ne_nil hne
    have hc : isDigitChar c = true := hdig c (hcr ▸ List.mem_cons_self c rest)
    have hc43 : c ≠ Char.ofNat 43 := by
      intro he; rw [he] at hc; exact absurd hc (by decide)
    have hc45 : c ≠ Char.ofNat 45 := by
      intro he; rw [he] at hc; exact absurd hc (by decide)
    have hall : (c :: rest).all isDigitChar = true :=
      List.all_eq_true.mpr (fun x hx => hdig x (hcr ▸ hx))
    have hv : digitsVal (c :: rest) = n := hcr ▸ hval
    simp only [atoi, hd, hcr, if_neg hc43, if_neg hc45]
    simp only [List.cons_ne_nil, if_neg (by simp : ¬(c :: rest = [])), hall, if_pos, hv,
      if_pos h, Bool.true_eq_false]
    simp [hv, h]

/-- Claim C1: the spec states `parseNumRange("a-b")` yields the closed range
`{a, b, true, true}` for all integers; the two-segment branch of the source
instead always falls through (a missing `return`) to the
"Malformed num range string" error, contradicting the function's own doc
comment (format `\d+\-\d+`).  This theorem evaluates the code at the
failing input `"1-2"`. -/
theorem claimC1_missing_return_eval :
    ParseNumRangeFromString "1-2" = .error .malformedNumRange ∧
    ParseNumRangeFromString "1-2" ≠ .ok ⟨1, 2, true, true⟩ := by
  constructor
  · decide
  · decide

/-- Claim C2 counterexample: the claim quantifies over every integer
including negative ones, but `-1` renders as `"-1"`, which splits on the
hyphen into two segments (the first empty), so the parse fails instead of
returning the single-point range `{-1, -1, true, true}`. -/
theorem claimC2_counterexample :
    ParseNumRangeFromString "-1" = .error (.atoiError "") ∧
    ParseNumRangeFromString "-1" ≠ .ok ⟨-1, -1, true, true⟩ := by
  constructor
  · decide
  · decide

/-- Claim C2 (amended): for every natural number n within the 64-bit `int`
range, parseNumRange on the decimal rendering of n succeeds with the
single-point inclusive range `{n, n, true, true}`; and every hyphen-free
single segment that `strconv.Atoi` rejects fails with the malformed-input
(Atoi) error. -/
theorem claimC2_single_point :
    (∀ n : Nat, n ≤ 9223372036854775807 →
      ParseNumRangeFromString (natDecimal n) = .ok ⟨(n : Int), (n : Int), true, true⟩) ∧
    (∀ s : String, Char.ofNat 45 ∉ s.data → atoi s = none →
      ParseNumRangeFromString s = .error (.atoiError s)) := by
  constructor
  · intro n h
    have hsplit := goSplit_of_not_mem (natDecimal n) (Char.ofNat 45) (natDecimal_no_hyphen n)
    have hatoi := atoi_natDecimal n h
    simp only [ParseNumRangeFromString, hsplit, hatoi]
  · intro s hmem hnone
    have hsplit := goSplit_of_not_mem s (Char.ofNat 45) hmem
    simp only [ParseNumRangeFromString, hsplit, hnone]

/-- Claim C2 witness: the amended theorem applied at n = 12 and at the
non-numeric segment `"abc"`. -/
theorem claimC2_witness :
    ParseNumRangeFromString (natDecimal 12) = .ok ⟨12, 12, true, true⟩ ∧
    ParseNumRangeFromString "abc" = .error (.atoiError "abc") :=
  ⟨claimC2_single_point.1 12 (by decide),
   claimC2_single_point.2 "abc" (by decide) (by decide)⟩

/-- Claim C7: a string splitting on colons into exactly three segments
whose first segment is case-insensitively `"urn"` parses into a Urn whose
namespace id and namespace-specific string are the second and third
segments verbatim (no percent-decoding, no character-set validation);
three segments with a different first segment fail with the
invalid-scheme malformed error, and any other segment count fails with
the malformed-urn error. -/
theorem claimC7_parse_urn :
    (∀ s a b c : String, goSplit s (Char.ofNat 58) = [a, b, c] →
      goToLower a = "urn" → ParseUrn s = .ok ⟨b, c⟩) ∧
    (∀ s a b c : String, goSplit s (Char.ofNat 58) = [a, b, c] →
      goToLower a ≠ "urn" → ParseUrn s = .error .urnInvalidScheme) ∧
    (∀ s : String, (goSplit s (Char.ofNat 58)).length ≠ 3 →
      ParseUrn s = .error .malformedUrn) := by
  refine ⟨?_, ?_, ?_⟩
  · intro s a b c hsplit ha
    simp only [ParseUrn, hsplit]
    rw [if_neg (by simp [ha])]
  · intro s a b c hsplit ha
    simp only [ParseUrn, hsplit]
    rw [if_pos ha]
  · intro s hlen
    cases h1 : goSplit s (Char.ofNat 58) with
    | nil => simp [ParseUrn, h1]
    | cons a t1 =>
      cases t1 with
      | nil => simp [ParseUrn, h1]
      | cons b t2 =>
        cases t2 with
        | nil => simp [ParseUrn, h1]
        | cons c t3 =>
          cases t3 with
          | nil => exact absurd (by rw [h1]; rfl) hlen
          | cons d t4 => simp [ParseUrn, h1]

/-- Claim C7 witness: the three parts applied at `"urn:a:b"` (and its
upper-case-scheme variant), at `"xrn:a:b"`, and at `"a:b"`. -/
theorem claimC7_witness :
    ParseUrn "urn:a:b" = .ok ⟨"a", "b"⟩ ∧
    ParseUrn "URN:a:b" = .ok ⟨"a", "b"⟩ ∧
    ParseUrn "xrn:a:b" = .error .urnInvalidScheme ∧
    ParseUrn "a:b" = .error .malformedUrn :=
  ⟨claimC7_parse_urn.1 "urn:a:b" "urn" "a" "b" (by decide) (by decide),
   claimC7_parse_urn.1 "URN:a:b" "URN" "a" "b" (by decide) (by decide),
   claimC7_parse_urn.2.1 "xrn:a:b" "xrn" "a" "b" (by decide) (by decide),
   claimC7_parse_urn.2.2 "a:b" (by decide)⟩

/-- Claim C10: rendering a Urn with `String()` (`urn:<nid>:<nss>`) and
parsing it back returns the original Urn, provided neither component
contains a colon. -/
theorem claimC10_urn_round_trip :
    ∀ u : Urn, Char.ofNat 58 ∉ u.Nid.data → Char.ofNat 58 ∉ u.Nss.data →
      ParseUrn u.goString = .ok u := by
  intro u h1 h2
  obtain ⟨⟨nid⟩, ⟨nss⟩⟩ := u
  have hassoc :
      [Char.ofNat 117, Char.ofNat 114, Char.ofNat 110, Char.ofNat 58] ++
        nid ++ [Char.ofNat 58] ++ nss =
      [Char.ofNat 117, Char.ofNat 114, Char.ofNat 110] ++
        Char.ofNat 58 :: (nid ++ Char.ofNat 58 :: nss) := by simp
  have hsplit : splitChar (Char.ofNat 58)
      ([Char.ofNat 117, Char.ofNat 114, Char.ofNat 110, Char.ofNat 58] ++
        nid ++ [Char.ofNat 58] ++ nss) =
      [[Char.ofNat 117, Char.ofNat 114, Char.ofNat 110], nid, nss] := by
    rw [hassoc, splitChar_append _ _ _ (by decide),
      splitChar_append _ _ _ h1, splitChar_of_not_mem _ _ h2]
  simp only [ParseUrn, Urn.goString, goSplit, hsplit, List.map_cons, List.map_nil]
  rw [if_neg (by decide)]

theorem collectInfoHashes_of_no_btih :
    ∀ xs : List Urn, (∀ u ∈ xs, goToLower u.Nid ≠ "btih") →
      collectInfoHashes xs = .ok [] := by
  intro xs
  induction xs with
  | nil => intro _; rfl
  | cons u rest ih =>
    intro h
    have hu : goToLower u.Nid ≠ "btih" := h u (List.mem_cons_self u rest)
    simp only [collectInfoHashes, if_neg hu]
    exact ih (fun v hv => h v (List.mem_cons_of_mem _ hv))

/-- Claim C4: when no exact-topic Urn has a namespace id equal (after
lower-casing) to `"btih"` — in particular when the exact-topic list is
empty — `AsTorrent` fails with the wrong-type `No torrent` error (which
the classifier places in the wrong-type family, not the malformed-input
family); and a successful `AsTorrent` always carries at least one
collected hash. -/
theorem claimC4_wrong_type :
    (∀ l : MagnetLink, (∀ u ∈ l.Xt, goToLower u.Nid ≠ "btih") →
      AsTorrent l = .error .noTorrent) ∧
    (∀ (l : MagnetLink) (t : TorrentMagnetLink), AsTorrent l = .ok t →
      t.InfoHashs ≠ []) ∧
    GoError.isWrongType .noTorrent = true ∧
    (∀ e : GoError, GoError.isWrongType e = true → e = .noTorrent) := by
  refine ⟨?_, ?_, rfl, ?_⟩
  · intro l h
    simp [AsTorrent, collectInfoHashes_of_no_btih l.Xt h]
  · intro l t h
    unfold AsTorrent at h
    split at h
    · exact Except.noConfusion h
    · split at h
      · exact Except.noConfusion h
      · rename_i hne
        injection h with h2
        rw [← h2]
        exact hne
  · intro e h
    cases e <;> first | rfl | exact Bool.noConfusion h

/-- Claim C4 witness: the first part applied to a MagnetLink with an
empty exact-topic list and to one whose only exact topic is a non-btih
Urn. -/
theorem claimC4_witness :
    AsTorrent {} = .error .noTorrent ∧
    AsTorrent { Xt := [⟨"ed2k", "abcdef"⟩] } = .error .noTorrent :=
  ⟨claimC4_wrong_type.1 {} (by decide),
   claimC4_wrong_type.1 { Xt := [⟨"ed2k", "abcdef"⟩] } (by decide)⟩

/-- Claim C3: `AsTorrent` dispatches on the character length of each
btih namespace-specific string — 32 to base-32/SHA-1, 40 to hex/SHA-1,
56 to base-32/SHA-256, 64 to hex/SHA-256, anything else to the
bad-length malformed error — and the single-xt 40-hex-character magnet
link of the spec specializes to exactly one SHA-1 hash of 20 bytes.
(Go measures `len(Nss)` in bytes; on the ASCII strings these decoders
accept, byte length and character length agree.) -/
theorem claimC3_length_dispatch :
    (∀ (l : MagnetLink) (nid nss : String) (rest : List Urn),
      l.Xt = ⟨nid, nss⟩ :: rest → goToLower nid = "btih" →
      nss.length ≠ 32 → nss.length ≠ 40 → nss.length ≠ 56 → nss.length ≠ 64 →
      AsTorrent l = .error .badBtihLength) ∧
    (∀ nss : String, nss.length = 32 →
      decodeBtih nss = match base32Decode nss.data with
        | some bs => .ok ⟨HashSHA1, bs⟩
        | none => .error (.btihDecode nss)) ∧
    (∀ nss : String, nss.length = 40 →
      decodeBtih nss = match hexDecode nss.data with
        | some bs => .ok ⟨HashSHA1, bs⟩
        | none => .error (.btihDecode nss)) ∧
    (∀ nss : String, nss.length = 56 →
      decodeBtih nss = match base32Decode nss.data with
        | some bs => .ok ⟨HashSHA256, bs⟩
        | none => .error (.btihDecode nss)) ∧
    (∀ nss : String, nss.length = 64 →
      decodeBtih nss = match hexDecode nss.data with
        | some bs => .ok ⟨HashSHA256, bs⟩
        | none => .error (.btihDecode nss)) ∧
    ParseTorrentMagnetLink "magnet:?xt=urn:btih:0123456789ABCDEF0123456789ABCDEF01234567" false =
      .ok ⟨{ Xt := [⟨"btih", "0123456789ABCDEF0123456789ABCDEF01234567"⟩] },
        [⟨HashSHA1, [1, 35, 69, 103, 137, 171, 205, 239, 1, 35, 69, 103,
          137, 171, 205, 239, 1, 35, 69, 103]⟩]⟩ ∧
    ([1, 35, 69, 103, 137, 171, 205, 239, 1, 35, 69, 103,
      137, 171, 205, 239, 1, 35, 69, 103] : List Nat).length = 20 := by
  refine ⟨?_, ?_, ?_, ?_, ?_, by decide, by decide⟩
  · intro l nid nss rest hXt hbtih h32 h40 h56 h64
    have hdec : decodeBtih nss = .error .badBtihLength := by
      simp only [decodeBtih, if_neg h32, if_neg h40, if_neg h56, if_neg h64]
    simp only [AsTorrent, hXt, collectInfoHashes]
    rw [if_pos hbtih, hdec]
  · intro nss h
    simp [decodeBtih, h]
  · intro nss h
    simp [decodeBtih, h]
  · intro nss h
    simp [decodeBtih, h]
  · intro nss h
    simp [decodeBtih, h]

/-- Claim C3 witness: the bad-length part applied to a singleton btih
topic of length 3, and the 40-character dispatch applied to the spec's
hex digest. -/
theorem claimC3_witness :
    AsTorrent { Xt := [⟨"btih", "abc"⟩] } = .error .badBtihLength ∧
    decodeBtih "0123456789ABCDEF0123456789ABCDEF01234567" =
      .ok ⟨HashSHA1, [1, 35, 69, 103, 137, 171, 205, 239, 1, 35, 69, 103,
        137, 171, 205, 239, 1, 35, 69, 103]⟩ := by
  constructor
  · exact claimC3_length_dispatch.1 { Xt := [⟨"btih", "abc"⟩] } "btih" "abc" []
      rfl (by decide) (by decide) (by decide) (by decide) (by decide)
  · exact claimC3_length_dispatch.2.2.1 "0123456789ABCDEF0123456789ABCDEF01234567" (by decide)

/-- Claim C5: whenever the generic URI parse succeeds but the scheme,
compared case-insensitively, differs from `"magnet"`, `ParseMagnetLink`
fails with the invalid-scheme malformed error, and in particular not
with the wrapped generic URI-parse error, and no MagnetLink is
returned. -/
theorem claimC5_invalid_scheme :
    ∀ (uri : String) (strict : Bool) (u : GoURL),
      urlParse uri = .ok u → goToLower u.scheme ≠ "magnet" →
      ParseMagnetLink uri strict = .error .invalidScheme ∧
      (∀ e : GoError, ParseMagnetLink uri strict ≠ .error (.magnetUriWrap e)) := by
  intro uri strict u h1 h2
  have hmain : ParseMagnetLink uri strict = .error .invalidScheme := by
    simp only [ParseMagnetLink, h1, if_pos h2]
  refine ⟨hmain, ?_⟩
  intro e hc
  rw [hmain] at hc
  injection hc with h3
  exact GoError.noConfusion h3

/-- Claim C5 witness: applied at `"http://example.com"`, which the URL
model parses with scheme `"http"`. -/
theorem claimC5_witness :
    ParseMagnetLink "http://example.com" false = .error .invalidScheme ∧
    (∀ e : GoError, ParseMagnetLink "http://example.com" false ≠ .error (.magnetUriWrap e)) :=
  claimC5_invalid_scheme "http://example.com" false
    { scheme := "http", host := "example.com" } (by decide) (by decide)

theorem collectXt_unknowns (vs : List String) :
    ∀ ml ml2 : MagnetLink, collectXt ml vs = .ok ml2 → ml2.Unknowns = ml.Unknowns := by
  induction vs with
  | nil =>
    intro ml ml2 h
    simp only [collectXt, Except.ok.injEq] at h
    rw [h]
  | cons v rest ih =>
    intro ml ml2 h
    cases hp : ParseUrn v with
    | error e =>
      simp only [collectXt, hp] at h
      exact Except.noConfusion h
    | ok u =>
      simp only [collectXt, hp] at h
      rw [ih _ _ h]

theorem collectXl_unknowns (vs : List String) :
    ∀ ml ml2 : MagnetLink, collectXl ml vs = .ok ml2 → ml2.Unknowns = ml.Unknowns := by
  induction vs with
  | nil =>
    intro ml ml2 h
    simp only [collectXl, Except.ok.injEq] at h
    rw [h]
  | cons v rest ih =>
    intro ml ml2 h
    cases hp : atoi v with
    | none =>
      simp only [collectXl, hp] at h
      exact Except.noConfusion h
    | some num =>
      simp only [collectXl, hp] at h
      rw [ih _ _ h]

theorem collectAs_unknowns (vs : List String) :
    ∀ ml ml2 : MagnetLink, collectAs ml vs = .ok ml2 → ml2.Unknowns = ml.Unknowns := by
  induction vs with
  | nil =>
    intro ml ml2 h
    simp only [collectAs, Except.ok.injEq] at h
    rw [h]
  | cons v rest ih =>
    intro ml ml2 h
    cases hp : queryUnescape v with
    | none =>
      simp only [collectAs, hp] at h
      exact Except.noConfusion h
    | some v2 =>
      simp only [collectAs, hp] at h
      rw [ih _ _ h]

theorem collectTr_unknowns (vs : List String) :
    ∀ ml ml2 : MagnetLink, collectTr ml vs = .ok ml2 → ml2.Unknowns = ml.Unknowns := by
  induction vs with
  | nil =>
    intro ml ml2 h
    simp only [collectTr, Except.ok.injEq] at h
    rw [h]
  | cons v rest ih =>
    intro ml ml2 h
    cases hp : queryUnescape v with
    | none =>
      simp only [collectTr, hp] at h
      exact Except.noConfusion h
    | some v2 =>
      simp only [collectTr, hp] at h
      rw [ih _ _ h]

theorem collectSoSegs_unknowns (segs : List (List Char)) :
    ∀ ml ml2 : MagnetLink, collectSoSegs ml segs = .ok ml2 → ml2.Unknowns = ml.Unknowns := by
  induction segs with
  | nil =>
    intro ml ml2 h
    simp only [collectSoSegs, Except.ok.injEq] at h
    rw [h]
  | cons seg rest ih =>
    intro ml ml2 h
    cases hp : ParseNumRangeFromString ⟨seg⟩ with
    | error e =>
      simp only [collectSoSegs, hp] at h
      exact Except.noConfusion h
    | ok r =>
      simp only [collectSoSegs, hp] at h
      rw [ih _ _ h]

theorem collectSo_unknowns (vs : List String) :
    ∀ ml ml2 : MagnetLink, collectSo ml vs = .ok ml2 → ml2.Unknowns = ml.Unknowns := by
  induction vs with
  | nil =>
    intro ml ml2 h
    simp only [collectSo, Except.ok.injEq] at h
    rw [h]
  | cons v rest ih =>
    intro ml ml2 h
    cases hs : collectSoSegs ml (splitChar (Char.ofNat 44) v.data) with
    | error e =>
      simp only [collectSo, hs] at h
      exact Except.noConfusion h
    | ok mlMid =>
      simp only [collectSo, hs] at h
      rw [ih _ _ h, collectSoSegs_unknowns _ _ _ hs]

theorem collectXt_error_family (vs : List String) :
    ∀ (ml : MagnetLink) (e : GoError), collectXt ml vs = .error e →
      e.isWrongType = false := by
  induction vs with
  | nil =>
    intro ml e h
    simp only [collectXt] at h
    exact Except.noConfusion h
  | cons v rest ih =>
    intro ml e h
    cases hp : ParseUrn v with
    | error e2 =>
      simp only [collectXt, hp, Except.error.injEq] at h
      rw [← h]
      rfl
    | ok u =>
      simp only [collectXt, hp] at h
      exact ih _ _ h

theorem collectXl_error_family (vs : List String) :
    ∀ (ml : MagnetLink) (e : GoError), collectXl ml vs = .error e →
      e.isWrongType = false := by
  induction vs with
  | nil =>
    intro ml e h
    simp only [collectXl] at h
    exact Except.noConfusion h
  | cons v rest ih =>
    intro ml e h
    cases hp : atoi v with
    | none =>
      simp only [collectXl, hp, Except.error.injEq] at h
      rw [← h]
      rfl
    | some num =>
      simp only [collectXl, hp] at h
      exact ih _ _ h

theorem collectAs_error_family (vs : List String) :
    ∀ (ml : MagnetLink) (e : GoError), collectAs ml vs = .error e →
      e.isWrongType = false := by
  induction vs with
  | nil =>
    intro ml e h
    simp only [collectAs] at h
    exact Except.noConfusion h
  | cons v rest ih =>
    intro ml e h
    cases hp : queryUnescape v with
    | none =>
      simp only [collectAs, hp, Except.error.injEq] at h
      rw [← h]
      rfl
    | some v2 =>
      simp only [collectAs, hp] at h
      exact ih _ _ h

theorem collectTr_error_family (vs : List String) :
    ∀ (ml : MagnetLink) (e : GoError), collectTr ml vs = .error e →
      e.isWrongType = false := by
  induction vs with
  | nil =>
    intro ml e h
    simp only [collectTr] at h
    exact Except.noConfusion h
  | cons v rest ih =>
    intro ml e h
    cases hp : queryUnescape v with
    | none =>
      simp only [collectTr, hp, Except.error.injEq] at h
      rw [← h]
      rfl
    | some v2 =>
      simp only [collectTr, hp] at h
      exact ih _ _ h

theorem collectSoSegs_error_family (segs : List (List Char)) :
    ∀ (ml : MagnetLink) (e : GoError), collectSoSegs ml segs = .error e →
      e.isWrongType = false := by
  induction segs with
  | nil =>
    intro ml e h
    simp only [collectSoSegs] at h
    exact Except.noConfusion h
  | cons seg rest ih =>
    intro ml e h
    cases hp : ParseNumRangeFromString ⟨seg⟩ with
    | error e2 =>
      simp only [collectSoSegs, hp, Except.error.injEq] at h
      rw [← h]
      rfl
    | ok r =>
      simp only [collectSoSegs, hp] at h
      exact ih _ _ h

theorem collectSo_error_family (vs : List String) :
    ∀ (ml : MagnetLink) (e : GoError), collectSo ml vs = .error e →
      e.isWrongType = false := by
  induction vs with
  | nil =>
    intro ml e h
    simp only [collectSo] at h
    exact Except.noConfusion h
  | cons v rest ih =>
    intro ml e h
    cases hs : collectSoSegs ml (splitChar (Char.ofNat 44) v.data) with
    | error e2 =>
      simp only [collectSo, hs, Except.error.injEq] at h
      rw [← h]
      exact collectSoSegs_error_family _ _ _ hs
    | ok mlMid =>
      simp only [collectSo, hs] at h
      exact ih _ _ h

theorem processEntry_error_family (strict : Bool) (ml : MagnetLink)
    (k : String) (vs : List String) (err : GoError)
    (h : processEntry strict ml (k, vs) = .error err) : err.isWrongType = false := by
  delta processEntry at h
  dsimp only at h
  by_cases h1 : goToLower k = "dn"
  · rw [if_pos h1] at h; exact Except.noConfusion h
  rw [if_neg h1] at h
  by_cases h2 : checkIsMagnetLinkXTParameter (goToLower k) = true
  · rw [if_pos h2] at h; exact collectXt_error_family _ _ _ h
  rw [if_neg h2] at h
  by_cases h3 : goToLower k = "xl"
  · rw [if_pos h3] at h; exact collectXl_error_family _ _ _ h
  rw [if_neg h3] at h
  by_cases h4 : goToLower k = "as"
  · rw [if_pos h4] at h; exact collectAs_error_family _ _ _ h
  rw [if_neg h4] at h
  by_cases h5 : goToLower k = "xs"
  · rw [if_pos h5] at h; exact Except.noConfusion h
  rw [if_neg h5] at h
  by_cases h6 : goToLower k = "kt"
  · rw [if_pos h6] at h; exact Except.noConfusion h
  rw [if_neg h6] at h
  by_cases h7 : goToLower k = "mt"
  · rw [if_pos h7] at h; exact Except.noConfusion h
  rw [if_neg h7] at h
  by_cases h8 : goToLower k = "tr"
  · rw [if_pos h8] at h; exact collectTr_error_family _ _ _ h
  rw [if_neg h8] at h
  by_cases h9 : goToLower k = "so"
  · rw [if_pos h9] at h; exact collectSo_error_family _ _ _ h
  rw [if_neg h9] at h
  by_cases h10 : startsWithChars (goToLower k) [Char.ofNat 120, Char.ofNat 46] = true
  · rw [if_pos h10] at h
    by_cases h10b : (goToLower k).data.length ≤ 2
    · rw [if_pos h10b] at h
      injection h with h11
      rw [← h11]
      rfl
    · rw [if_neg h10b] at h
      exact Except.noConfusion h
  rw [if_neg h10] at h
  by_cases h11 : strict = true
  · rw [if_pos h11] at h
    injection h with h12
    rw [← h12]
    rfl
  · rw [if_neg h11] at h
    exact Except.noConfusion h

theorem mapAppend_self (m : List (String × List String)) (k : String) (vs : List String) :
    ∃ ws, (k, ws) ∈ mapAppend m k vs ∧ vs <:+ ws := by
  induction m with
  | nil => exact ⟨vs, List.mem_singleton.mpr rfl, List.suffix_refl vs⟩
  | cons p rest ih =>
    obtain ⟨k2, vs2⟩ := p
    by_cases hk : k2 = k
    · subst hk
      refine ⟨vs2 ++ vs, ?_, List.suffix_append vs2 vs⟩
      simp only [mapAppend, if_pos rfl]
      exact List.mem_cons_self _ _
    · obtain ⟨ws, hmem, hsuf⟩ := ih
      refine ⟨ws, ?_, hsuf⟩
      simp only [mapAppend, if_neg hk]
      exact List.mem_cons_of_mem _ hmem

theorem mapAppend_preserve (m : List (String × List String)) (k2 : String)
    (vs2 : List String) (k : String) (ws : List String) (hmem : (k, ws) ∈ m) :
    ∃ ws2, (k, ws2) ∈ mapAppend m k2 vs2 ∧ ws <+: ws2 := by
  induction m with
  | nil => cases hmem
  | cons p rest ih =>
    obtain ⟨k3, vs3⟩ := p
    rcases List.mem_cons.mp hmem with heq | hmem2
    · injection heq with h1 h2
      subst h1
      subst h2
      by_cases hk : k = k2
      · subst hk
        refine ⟨ws ++ vs2, ?_, List.prefix_append ws vs2⟩
        simp only [mapAppend, if_pos rfl]
        exact List.mem_cons_self _ _
      · refine ⟨ws, ?_, List.prefix_refl ws⟩
        simp only [mapAppend, if_neg hk]
        exact List.mem_cons_self _ _
    · by_cases hk : k3 = k2
      · subst hk
        refine ⟨ws, ?_, List.prefix_refl ws⟩
        simp only [mapAppend, if_pos rfl]
        exact List.mem_cons_of_mem _ hmem2
      · obtain ⟨ws2, hm2, hp2⟩ := ih hmem2
        refine ⟨ws2, ?_, hp2⟩
        simp only [mapAppend, if_neg hk]
        exact List.mem_cons_of_mem _ hm2

theorem processEntry_unknowns_preserve (strict : Bool) (ml : MagnetLink)
    (k0 : String) (vs0 : List String) (ml2 : MagnetLink)
    (h : processEntry strict ml (k0, vs0) = .ok ml2) :
    ∀ (k : String) (ws : List String), (k, ws) ∈ ml.Unknowns →
      ∃ ws2, (k, ws2) ∈ ml2.Unknowns ∧ ws <+: ws2 := by
  intro k ws hmem
  delta processEntry at h
  dsimp only at h
  by_cases h1 : goToLower k0 = "dn"
  · rw [if_pos h1] at h
    injection h with h2
    exact ⟨ws, by rw [← h2]; exact hmem, List.prefix_refl ws⟩
  rw [if_neg h1] at h
  by_cases h2 : checkIsMagnetLinkXTParameter (goToLower k0) = true
  · rw [if_pos h2] at h
    exact ⟨ws, by rw [collectXt_unknowns _ _ _ h]; exact hmem, List.prefix_refl ws⟩
  rw [if_neg h2] at h
  by_cases h3 : goToLower k0 = "xl"
  · rw [if_pos h3] at h
    exact ⟨ws, by rw [collectXl_unknowns _ _ _ h]; exact hmem, List.prefix_refl ws⟩
  rw [if_neg h3] at h
  by_cases h4 : goToLower k0 = "as"
  · rw [if_pos h4] at h
    exact ⟨ws, by rw [collectAs_unknowns _ _ _ h]; exact hmem, List.prefix_refl ws⟩
  rw [if_neg h4] at h
  by_cases h5 : goToLower k0 = "xs"
  · rw [if_pos h5] at h
    injection h with h5b
    exact ⟨ws, by rw [← h5b]; exact hmem, List.prefix_refl ws⟩
  rw [if_neg h5] at h
  by_cases h6 : goToLower k0 = "kt"
  · rw [if_pos h6] at h
    injection h with h6b
    exact ⟨ws, by rw [← h6b]; exact hmem, List.prefix_refl ws⟩
  rw [if_neg h6] at h
  by_cases h7 : goToLower k0 = "mt"
  · rw [if_pos h7] at h
    injection h with h7b
    exact ⟨ws, by rw [← h7b]; exact hmem, List.prefix_refl ws⟩
  rw [if_neg h7] at h
  by_cases h8 : goToLower k0 = "tr"
  · rw [if_pos h8] at h
    exact ⟨ws, by rw [collectTr_unknowns _ _ _ h]; exact hmem, List.prefix_refl ws⟩
  rw [if_neg h8] at h
  by_cases h9 : goToLower k0 = "so"
  · rw [if_pos h9] at h
    exact ⟨ws, by rw [collectSo_unknowns _ _ _ h]; exact hmem, List.prefix_refl ws⟩
  rw [if_neg h9] at h
  by_cases h10 : startsWithChars (goToLower k0) [Char.ofNat 120, Char.ofNat 46] = true
  · rw [if_pos h10] at h
    by_cases h10b : (goToLower k0).data.length ≤ 2
    · rw [if_pos h10b] at h
      exact Except.noConfusion h
    · rw [if_neg h10b] at h
      injection h with h10c
      exact ⟨ws, by rw [← h10c]; exact hmem, List.prefix_refl ws⟩
  rw [if_neg h10] at h
  by_cases h11 : strict = true
  · rw [if_pos h11] at h
    exact Except.noConfusion h
  · rw [if_neg h11] at h
    injection h with h11b
    obtain ⟨ws2, hm2, hp2⟩ := mapAppend_preserve ml.Unknowns (goToLower k0) vs0 k ws hmem
    exact ⟨ws2, by rw [← h11b]; exact hm2, hp2⟩

theorem processAll_unknowns_preserve :
    ∀ (es : List (String × List String)) (strict : Bool) (ml ml2 : MagnetLink),
      processAll strict ml es = .ok ml2 →
      ∀ (k : String) (ws : List String), (k, ws) ∈ ml.Unknowns →
        ∃ ws2, (k, ws2) ∈ ml2.Unknowns ∧ ws <+: ws2 := by
  intro es
  induction es with
  | nil =>
    intro strict ml ml2 h k ws hmem
    simp only [processAll, Except.ok.injEq] at h
    exact ⟨ws, by rw [← h]; exact hmem, List.prefix_refl ws⟩
  | cons e0 rest ih =>
    intro strict ml ml2 h k ws hmem
    cases hpe : processEntry strict ml e0 with
    | error err =>
      simp only [processAll, hpe] at h
      exact Except.noConfusion h
    | ok mlMid =>
      simp only [processAll, hpe] at h
      obtain ⟨k0, vs0⟩ := e0
      obtain ⟨ws1, hm1, hp1⟩ :=
        processEntry_unknowns_preserve strict ml k0 vs0 mlMid hpe k ws hmem
      obtain ⟨ws2, hm2, hp2⟩ := ih strict mlMid ml2 h k ws1 hm1
      exact ⟨ws2, hm2, hp1.trans hp2⟩

theorem processEntry_unrecognized (ml : MagnetLink) (k : String) (vs : List String)
    (h : unrecognizedMagnetKey (goToLower k)) :
    processEntry false ml (k, vs) =
      .ok { ml with Unknowns := mapAppend ml.Unknowns (goToLower k) vs } ∧
    processEntry true ml (k, vs) = .error .unknownParameters := by
  obtain ⟨hdn, hxt, hxl, has, hxs, hkt, hmt, htr, hso, hxp⟩ := h
  constructor <;>
    · simp only [processEntry, hxt, hxp, if_neg hdn, if_neg hxl, if_neg has,
        if_neg hxs, if_neg hkt, if_neg hmt, if_neg htr, if_neg hso,
        Bool.false_eq_true, if_false]
      try rfl

theorem processAll_strict_error :
    ∀ (es : List (String × List String)) (ml : MagnetLink) (k : String) (vs : List String),
      (k, vs) ∈ es → unrecognizedMagnetKey (goToLower k) →
      ∃ e, processAll true ml es = .error e ∧ e.isWrongType = false := by
  intro es
  induction es with
  | nil =>
    intro ml k vs hmem _
    cases hmem
  | cons e0 rest ih =>
    intro ml k vs hmem hunrec
    rcases List.mem_cons.mp hmem with heq | hmem2
    · subst heq
      have hpe := (processEntry_unrecognized ml k vs hunrec).2
      exact ⟨.unknownParameters, by simp only [processAll, hpe], rfl⟩
    · obtain ⟨k0, vs0⟩ := e0
      cases hpe : processEntry true ml (k0, vs0) with
      | error err =>
        exact ⟨err, by simp only [processAll, hpe],
          processEntry_error_family _ _ _ _ _ hpe⟩
      | ok mlMid =>
        obtain ⟨e, he, hw⟩ := ih mlMid k vs hmem2 hunrec
        exact ⟨e, by simp only [processAll, hpe]; exact he, hw⟩

theorem processAll_unknown_mem :
    ∀ (es : List (String × List String)) (ml ml2 : MagnetLink) (k : String) (vs : List String),
      processAll false ml es = .ok ml2 → (k, vs) ∈ es →
      unrecognizedMagnetKey (goToLower k) →
      ∃ ws, (goToLower k, ws) ∈ ml2.Unknowns ∧ vs <:+: ws := by
  intro es
  induction es with
  | nil =>
    intro ml ml2 k vs _ hmem _
    cases hmem
  | cons e0 rest ih =>
    intro ml ml2 k vs h hmem hunrec
    rcases List.mem_cons.mp hmem with heq | hmem2
    · subst heq
      have hok := (processEntry_unrecognized ml k vs hunrec).1
      simp only [processAll, hok] at h
      obtain ⟨ws0, hm0, hsuf⟩ := mapAppend_self ml.Unknowns (goToLower k) vs
      obtain ⟨ws2, hm2, hp2⟩ :=
        processAll_unknowns_preserve rest false _ ml2 h (goToLower k) ws0 hm0
      exact ⟨ws2, hm2, hsuf.isInfix.trans hp2.isInfix⟩
    · cases hpe : processEntry false ml e0 with
      | error err =>
        simp only [processAll, hpe] at h
        exact Except.noConfusion h
      | ok mlMid =>
        simp only [processAll, hpe] at h
        exact ih mlMid ml2 k vs h hmem2 hunrec

/-- Claim C6 counterexamples: two instances refute the claim as stated.
First, the raw key does not in general appear in the unknown-parameters
mapping: the parameter loop lower-cases every key before the dispatch
and stores the lower-cased key, so `magnet:?FOO=bar` stores `foo`, and
the raw key `FOO` is absent.  Second, with strict mode disabled a
magnet URI containing an unknown key does not always succeed: in
`magnet:?xl=z&foo=bar` the recognized `xl` entry is malformed and the
whole parse fails, even though the unknown `foo` entry is present. -/
theorem claimC6_counterexample :
    ParseMagnetLink "magnet:?FOO=bar" false = .ok { Unknowns := [("foo", ["bar"])] } ∧
    List.lookup "FOO" [("foo", ["bar"])] = none ∧
    ParseMagnetLink "magnet:?xl=z&foo=bar" false = .error (.invalidXl "z") := by
  refine ⟨by decide, by decide, by decide⟩

/-- Claim C6 (amended): for every magnet URI whose percent-decoded query
contains an entry under a key that, lower-cased, matches none of the
recognized grammars: (1) with strict mode enabled the parse fails, with
a malformed-magnet-link error (never the wrong-type error); (2) with
strict mode disabled the unknown entry never causes failure — whenever
the parse succeeds, the key appears lower-cased in the
unknown-parameters mapping with the entry's ordered values inside its
value list; and (3) when the unknown entry is the only query entry the
non-strict parse does succeed, with exactly that lower-cased key and
its values as the whole mapping (foo=bar yields {foo:[bar]}). -/
theorem claimC6_unknown_key :
    (∀ (uri : String) (u : GoURL) (k : String) (vs : List String),
      urlParse uri = .ok u → goToLower u.scheme = "magnet" →
      (k, vs) ∈ goParseQuery u.rawQuery → unrecognizedMagnetKey (goToLower k) →
      ∃ e, ParseMagnetLink uri true = .error e ∧ e.isWrongType = false) ∧
    (∀ (uri : String) (u : GoURL) (k : String) (vs : List String) (ml : MagnetLink),
      urlParse uri = .ok u → goToLower u.scheme = "magnet" →
      (k, vs) ∈ goParseQuery u.rawQuery → unrecognizedMagnetKey (goToLower k) →
      ParseMagnetLink uri false = .ok ml →
      ∃ ws, (goToLower k, ws) ∈ ml.Unknowns ∧ vs <:+: ws) ∧
    (∀ (uri : String) (u : GoURL) (k : String) (vs : List String),
      urlParse uri = .ok u → goToLower u.scheme = "magnet" →
      goParseQuery u.rawQuery = [(k, vs)] → unrecognizedMagnetKey (goToLower k) →
      ParseMagnetLink uri true = .error .unknownParameters ∧
      ParseMagnetLink uri false = .ok { Unknowns := [(goToLower k, vs)] }) := by
  refine ⟨?_, ?_, ?_⟩
  · intro uri u k vs h1 h2 hmem hunrec
    have hscheme : ¬(goToLower u.scheme ≠ "magnet") := by simp [h2]
    obtain ⟨e, he, hw⟩ := processAll_strict_error (goParseQuery u.rawQuery) {} k vs hmem hunrec
    exact ⟨e, by simp only [ParseMagnetLink, h1, if_neg hscheme]; exact he, hw⟩
  · intro uri u k vs ml h1 h2 hmem hunrec hok
    have hscheme : ¬(goToLower u.scheme ≠ "magnet") := by simp [h2]
    simp only [ParseMagnetLink, h1, if_neg hscheme] at hok
    exact processAll_unknown_mem (goParseQuery u.rawQuery) {} ml k vs hok hmem hunrec
  · intro uri u k vs h1 h2 h3 h4
    obtain ⟨hdn, hxt, hxl, has, hxs, hkt, hmt, htr, hso, hxp⟩ := h4
    have hscheme : ¬(goToLower u.scheme ≠ "magnet") := by simp [h2]
    constructor
    · simp only [ParseMagnetLink, h1, if_neg hscheme, h3, processAll, processEntry,
        hxt, hxp, if_neg hdn, if_neg hxl, if_neg has, if_neg hxs, if_neg hkt,
        if_neg hmt, if_neg htr, if_neg hso, Bool.false_eq_true, if_false]
      rfl
    · simp only [ParseMagnetLink, h1, if_neg hscheme, h3, processAll, processEntry,
        hxt, hxp, if_neg hdn, if_neg hxl, if_neg has, if_neg hxs, if_neg hkt,
        if_neg hmt, if_neg htr, if_neg hso, Bool.false_eq_true, if_false]
      rfl

/-- Claim C6 witness: part (3) applied at `magnet:?foo=bar`, part (1)
and part (2) applied at the two-entry URI `magnet:?dn=X&foo=bar`. -/
theorem claimC6_witness :
    (ParseMagnetLink "magnet:?foo=bar" true = .error .unknownParameters ∧
      ParseMagnetLink "magnet:?foo=bar" false = .ok { Unknowns := [("foo", ["bar"])] }) ∧
    (∃ e, ParseMagnetLink "magnet:?dn=X&foo=bar" true = .error e ∧
      e.isWrongType = false) ∧
    (∃ ws, (("foo" : String), ws) ∈
      ({ Dn := ["X"], Unknowns := [("foo", ["bar"])] } : MagnetLink).Unknowns ∧
      (["bar"] : List String) <:+: ws) := by
  refine ⟨?_, ?_, ?_⟩
  · exact claimC6_unknown_key.2.2 "magnet:?foo=bar"
      ⟨"magnet", "", "", "", "foo=bar", ""⟩ "foo" ["bar"]
      (by decide) (by decide) (by decide) (by decide)
  · exact claimC6_unknown_key.1 "magnet:?dn=X&foo=bar"
      ⟨"magnet", "", "", "", "dn=X&foo=bar", ""⟩ "foo" ["bar"]
      (by decide) (by decide) (by decide) (by decide)
  · exact claimC6_unknown_key.2.1 "magnet:?dn=X&foo=bar"
      ⟨"magnet", "", "", "", "dn=X&foo=bar", ""⟩ "foo" ["bar"]
      { Dn := ["X"], Unknowns := [("foo", ["bar"])] }
      (by decide) (by decide) (by decide) (by decide) (by decide)

/-- Claim C8: the display-name/tracker example of the spec parses with
`Dn = ["Test"]` and `Tr = ["http://tracker.example/announce"]`; the
second conjunct shows the extra explicit unescape pass on `tr` values
(a doubly-encoded `%2520` becomes a space only because the value is
decoded twice), and the third shows that a `tr` value whose extra
unescape fails aborts the whole parse with the invalid-tr malformed
error. -/
theorem claimC8_tracker_decode :
    ParseMagnetLink "magnet:?dn=Test&tr=http%3A%2F%2Ftracker.example%2Fannounce" false =
      .ok { Dn := ["Test"], Tr := ["http://tracker.example/announce"] } ∧
    ParseMagnetLink "magnet:?tr=a%2520b" false = .ok { Tr := ["a b"] } ∧
    ParseMagnetLink "magnet:?tr=%25zz" false = .error (.invalidTr "%zz") := by
  refine ⟨by decide, by decide, by decide⟩

/-- Claim C9: `ParseTorrentMagnetLink` is extensionally the composition
of `ParseMagnetLink` and `AsTorrent` — a first-stage error propagates
unchanged, a specialization error propagates unchanged, and otherwise
the same TorrentMagnetLink results. -/
theorem claimC9_parse_then_specialize :
    ∀ (uri : String) (strict : Bool),
      ParseTorrentMagnetLink uri strict = parseThenSpecialize uri strict := by
  intro uri strict
  unfold ParseTorrentMagnetLink parseThenSpecialize
  cases ParseMagnetLink uri strict <;> rfl

/-- Claim C10 witness: the round trip applied at a concrete colon-free
Urn. -/
theorem claimC10_witness :
    ParseUrn (Urn.goString ⟨"isbn", "0451450523"⟩) = .ok ⟨"isbn", "0451450523"⟩ :=
  claimC10_urn_round_trip ⟨"isbn", "0451450523"⟩ (by decide) (by decide)
